import Mathlib

/-!
Verification development for the PrepVista RAG backend
(`ai-backend/pdf_processor.py`, `embedding_service.py`, `vector_storage.py`,
`rag_service.py`).

The Python code is shallowly embedded: pure functions become Lean functions,
the pgvector table becomes an explicit list-of-rows state, fallible calls
(`generate_embedding`, the `genai` client, the SQL connection) become
`Option`-returning function parameters.  Machine floats are modelled by exact
arithmetic: `ℚ` for similarity scores and stored vectors, `ℝ` for the cosine
computation of `calculate_similarity` (which divides by square roots of sums
of squares).  The external tokenizer (`tiktoken` `cl100k_base`) is kept
abstract as a parameter `tok : String → Nat` giving `len(encoding.encode s)`.
-/

namespace PrepVista

/-! ## `pdf_processor.py` — chunking

`split_text_into_chunks` first normalizes the text (`clean_text`) and splits
it into sentences with the regex `(?<=[.!?])\s+`; both steps are kept abstract
here: the embedding takes the resulting sentence list directly.  The free-form
`metadata` dict copied unchanged onto every chunk, and the page-attribution
heuristic, are not modelled (no claim concerns them). -/

/-- Python `str.split()` with no arguments on a list of characters: split on
runs of whitespace, dropping empty pieces.  `acc` holds the characters of the
current word, reversed. -/
def pySplitChars : List Char → List Char → List (List Char)
  | [], acc => if acc.isEmpty then [] else [acc.reverse]
  | c :: cs, acc =>
    if c.isWhitespace then
      if acc.isEmpty then pySplitChars cs [] else acc.reverse :: pySplitChars cs []
    else pySplitChars cs (c :: acc)

/-- Python `text.split()`: whitespace-separated words of `text`. -/
def pySplitWs (s : String) : List String :=
  (pySplitChars s.data []).map String.mk

/-- Python `str.strip()`: drop leading and trailing whitespace. -/
def pyStrip (s : String) : String :=
  String.mk (((s.data.dropWhile Char.isWhitespace).reverse.dropWhile
      Char.isWhitespace).reverse)

/-- Python `sep.join ws`. -/
def joinSep (sep : String) : List String → String
  | [] => ""
  | [w] => w
  | w :: ws => w ++ sep ++ joinSep sep ws

/-- `PDFProcessor._get_overlap_text`: the trailing `chunk_overlap // 4` words
of the closed chunk (the whole text when it has no more words than that).
When `chunk_overlap // 4 = 0`, Python's `words[-0:]` is the whole word list,
hence the extra case. -/
def get_overlap_text (chunk_overlap : Nat) (text : String) : String :=
  let words := pySplitWs text
  let k := chunk_overlap / 4
  if words.length ≤ k then text
  else joinSep " " (if k = 0 then words else words.drop (words.length - k))

/-- One chunk record produced by `split_text_into_chunks` (the `metadata`
entry of the Python dict is not modelled). -/
structure Chunk where
  content : String
  chunk_index : Nat
  token_count : Nat
deriving Repr, DecidableEq

/-- The sentence loop of `PDFProcessor.split_text_into_chunks`.  `tok s` is
`len(self.encoding.encode s)`; `cur`/`curTok`/`idx` are
`current_chunk`/`current_tokens`/`chunk_index`.  Python's truthiness test
`and current_chunk` is `cur ≠ ""`; on loop exit the last chunk is kept when
`current_chunk.strip()` is truthy. -/
def splitLoop (tok : String → Nat) (chunk_size chunk_overlap : Nat) :
    List String → String → Nat → Nat → List Chunk
  | [], cur, curTok, idx =>
    if pyStrip cur ≠ "" then [⟨pyStrip cur, idx, curTok⟩] else []
  | s :: rest, cur, curTok, idx =>
    let st := tok s
    if curTok + st > chunk_size ∧ cur ≠ "" then
      let ov := get_overlap_text chunk_overlap cur
      let cur' := ov ++ " " ++ s
      ⟨pyStrip cur, idx, curTok⟩ ::
        splitLoop tok chunk_size chunk_overlap rest cur' (tok cur') (idx + 1)
    else
      let cur' := if cur ≠ "" then cur ++ " " ++ s else s
      splitLoop tok chunk_size chunk_overlap rest cur' (curTok + st) idx

/-- `PDFProcessor.split_text_into_chunks`, taking the sentence list produced
by the regex split of the cleaned text. -/
def split_text_into_chunks (tok : String → Nat) (chunk_size chunk_overlap : Nat)
    (sentences : List String) : List Chunk :=
  splitLoop tok chunk_size chunk_overlap sentences "" 0 0

/-- The shapes the pending chunk of the loop can take: within the token
budget, a single sentence, or an overlap seed (overlap words of some closed
chunk, a space, a sentence). -/
def PendOk (tok : String → Nat) (chunk_size chunk_overlap : Nat)
    (sentences : List String) (cur : String) (n : Nat) : Prop :=
  n ≤ chunk_size ∨ (∃ s ∈ sentences, cur = s ∧ n = tok s) ∨
    ∃ c, ∃ s ∈ sentences, cur = get_overlap_text chunk_overlap c ++ " " ++ s ∧
      n = tok (get_overlap_text chunk_overlap c ++ " " ++ s)

/-- The corresponding shapes of an emitted chunk: within the budget, a whole
single sentence (stripped) as its own chunk, or a whole overlap seed
(stripped) — never a mid-sentence fragment. -/
def ChunkOk (tok : String → Nat) (chunk_size chunk_overlap : Nat)
    (sentences : List String) (ch : Chunk) : Prop :=
  ch.token_count ≤ chunk_size ∨
    (∃ s ∈ sentences, ch.content = pyStrip s ∧ ch.token_count = tok s) ∨
    ∃ c, ∃ s ∈ sentences,
      ch.content = pyStrip (get_overlap_text chunk_overlap c ++ " " ++ s) ∧
      ch.token_count = tok (get_overlap_text chunk_overlap c ++ " " ++ s)

theorem append_space_ne_empty (a b : String) : a ++ " " ++ b ≠ "" := by
  intro h
  have h2 := congrArg String.length h
  have hsp : (" " : String).length = 1 := rfl
  have hem : ("" : String).length = 0 := rfl
  simp only [String.length_append, hsp, hem] at h2
  omega

theorem pendOk_chunkOk {tok : String → Nat} {chunk_size chunk_overlap : Nat}
    {sentences : List String} {cur : String} {n idx : Nat}
    (h : PendOk tok chunk_size chunk_overlap sentences cur n) :
    ChunkOk tok chunk_size chunk_overlap sentences ⟨pyStrip cur, idx, n⟩ := by
  rcases h with h | ⟨s, hs, hc1, hc2⟩ | ⟨c, s, hs, hc1, hc2⟩
  · exact Or.inl h
  · exact Or.inr (Or.inl ⟨s, hs, congrArg pyStrip hc1, hc2⟩)
  · exact Or.inr (Or.inr ⟨c, s, hs, congrArg pyStrip hc1, hc2⟩)

/-- Loop invariant of `splitLoop`: every emitted chunk has one of the three
`ChunkOk` shapes, provided the pending chunk does and the empty pending
chunk carries count 0. -/
theorem splitLoop_chunkOk (tok : String → Nat) (chunk_size chunk_overlap : Nat)
    (sentences : List String) (h0 : tok "" = 0) :
    ∀ (rest : List String) (cur : String) (curTok idx : Nat),
      (∀ s ∈ rest, s ∈ sentences) →
      (cur = "" → curTok = 0) →
      PendOk tok chunk_size chunk_overlap sentences cur curTok →
      ∀ ch ∈ splitLoop tok chunk_size chunk_overlap rest cur curTok idx,
        ChunkOk tok chunk_size chunk_overlap sentences ch := by
  intro rest
  induction rest with
  | nil =>
    intro cur curTok idx _ _ hcur ch hch
    rw [splitLoop] at hch
    split at hch
    · simp only [List.mem_singleton] at hch
      subst hch
      exact pendOk_chunkOk hcur
    · simp at hch
  | cons s rest ih =>
    intro cur curTok idx hsub hemp hcur ch hch
    have hs : s ∈ sentences := hsub s (List.mem_cons_self s rest)
    have hsub2 : ∀ x ∈ rest, x ∈ sentences := fun x hx => hsub x (List.mem_cons_of_mem s hx)
    rw [splitLoop] at hch
    split at hch
    · rcases List.mem_cons.mp hch with hch | hch
      · subst hch
        exact pendOk_chunkOk hcur
      · refine ih _ _ _ hsub2 (fun h => absurd h (append_space_ne_empty _ _)) ?_ ch hch
        exact Or.inr (Or.inr ⟨cur, s, hs, rfl, rfl⟩)
    · rename_i hcond
      by_cases hce : cur = ""
      · subst hce
        simp only [ne_eq, not_true_eq_false, if_neg, ite_self] at hch
        have hz : curTok = 0 := hemp rfl
        refine ih _ _ _ hsub2 ?_ ?_ ch (by simpa [hz] using hch)
        · intro hse
          subst hse
          simp [hz, h0]
        · exact Or.inr (Or.inl ⟨s, hs, rfl, by simp [hz]⟩)
      · have hle : curTok + tok s ≤ chunk_size := by
          by_contra hlt
          exact hcond ⟨by omega, hce⟩
        rw [if_pos (show cur ≠ "" from hce)] at hch
        exact ih (cur ++ " " ++ s) (curTok + tok s) idx hsub2
          (fun h => absurd h (append_space_ne_empty cur s)) (Or.inl hle) ch hch

/-- A word with no edge whitespace, as the sentence regex produces on
cleaned text. -/
def CleanWord (x : List Char) : Prop :=
  x ≠ [] ∧ (∀ a ∈ x.head?, a.isWhitespace = false) ∧
    ∀ a ∈ x.reverse.head?, a.isWhitespace = false

theorem cons_infix_dropWhile {α : Type} {p : α → Bool} {c : α} {x l : List α}
    (hc : ¬p c = true) (h : (c :: x) <:+: l) : (c :: x) <:+: l.dropWhile p := by
  induction l with
  | nil =>
    rw [List.infix_nil] at h
    exact absurd h (by simp)
  | cons d l ih =>
    rw [List.dropWhile_cons]
    by_cases hd : p d = true
    · rw [if_pos hd]
      rcases List.infix_cons_iff.mp h with hpre | hinf
      · obtain ⟨t, ht⟩ := hpre
        have hcd : c = d := by
          have := congrArg List.head? ht
          simpa using this
        exact absurd (show p c = true by rw [hcd]; exact hd) hc
      · exact ih hinf
    · rw [if_neg hd]
      exact h

theorem dropWhile_eq_self_head {α : Type} {p : α → Bool} {l : List α}
    (h : l.dropWhile p = l) : ∀ a ∈ l.head?, p a = false := by
  intro a ha
  cases l with
  | nil => simp at ha
  | cons c l2 =>
    rw [List.head?_cons, Option.mem_def] at ha
    injection ha with hac
    subst hac
    by_contra hp
    have hpt : p c = true := by simpa using hp
    rw [List.dropWhile_cons, if_pos hpt] at h
    have hle : (l2.dropWhile p).length ≤ l2.length :=
      ((List.dropWhile_suffix p).sublist).length_le
    rw [h] at hle
    simp only [List.length_cons] at hle
    omega

/-- A clean word that occurs inside `t` still occurs inside `t.strip()`:
stripping only removes whitespace at the two ends of `t` and stops at the
first non-whitespace character. -/
theorem infix_pyStrip {x : List Char} {t : String} (hx : CleanWord x)
    (h : x <:+: t.data) : x <:+: (pyStrip t).data := by
  obtain ⟨hne, hh, hl⟩ := hx
  match x, hne, hh, hl, h with
  | c :: x0, _, hh, hl, h =>
    have hc : ¬c.isWhitespace = true := by
      simpa using hh c (by simp)
    have h1 : (c :: x0) <:+: t.data.dropWhile Char.isWhitespace :=
      cons_infix_dropWhile hc h
    obtain ⟨d, y, hdy⟩ : ∃ d y, (c :: x0).reverse = d :: y := by
      cases hxr : (c :: x0).reverse with
      | nil => exact absurd hxr (by simp)
      | cons d y => exact ⟨d, y, rfl⟩
    have hd : ¬d.isWhitespace = true := by
      have := hl d (by rw [hdy]; simp)
      simpa using this
    have h2 : (c :: x0).reverse <:+:
        ((t.data.dropWhile Char.isWhitespace).reverse).dropWhile Char.isWhitespace := by
      rw [hdy]
      refine cons_infix_dropWhile hd ?_
      rw [← hdy]
      exact List.reverse_infix.mpr h1
    have h3 := List.reverse_infix.mpr h2
    rw [List.reverse_reverse] at h3
    exact h3

/-- A sentence that `strip()` leaves unchanged is a clean word. -/
theorem cleanWord_data {s : String} (hs : pyStrip s = s) (hne : s ≠ "") :
    CleanWord s.data := by
  have hdata : ((s.data.dropWhile Char.isWhitespace).reverse.dropWhile
      Char.isWhitespace).reverse = s.data := congrArg String.data hs
  have hsuffix : ∀ (m : List Char), (m.dropWhile Char.isWhitespace).length ≤ m.length :=
    fun m => ((List.dropWhile_suffix Char.isWhitespace).sublist).length_le
  have hlenEq := congrArg List.length hdata
  rw [List.length_reverse] at hlenEq
  have e1 : (s.data.dropWhile Char.isWhitespace).length = s.data.length := by
    have a1 := hsuffix ((s.data.dropWhile Char.isWhitespace).reverse)
    rw [List.length_reverse] at a1
    have a2 := hsuffix s.data
    omega
  have hD1 : s.data.dropWhile Char.isWhitespace = s.data :=
    (List.dropWhile_suffix Char.isWhitespace).eq_of_length e1
  have hdata2 : (s.data.reverse.dropWhile Char.isWhitespace).reverse = s.data := by
    rw [hD1] at hdata
    exact hdata
  have e2 : (s.data.reverse.dropWhile Char.isWhitespace).length = s.data.reverse.length := by
    have h3 := congrArg List.length hdata2
    rw [List.length_reverse] at h3
    rw [List.length_reverse]
    exact h3
  have hD2 : s.data.reverse.dropWhile Char.isWhitespace = s.data.reverse :=
    (List.dropWhile_suffix Char.isWhitespace).eq_of_length e2
  refine ⟨?_, dropWhile_eq_self_head hD1, dropWhile_eq_self_head hD2⟩
  intro hd
  exact hne (String.ext hd)

/-- A clean word inside the pending chunk survives into some emitted chunk:
the pending text only ever grows until it is emitted (stripped) as a chunk,
and a chunk containing a clean word is never discarded by the final
truthiness test. -/
theorem splitLoop_covers_cur (tok : String → Nat) (chunk_size chunk_overlap : Nat) :
    ∀ (rest : List String) (cur : String) (curTok idx : Nat) (x : List Char),
      CleanWord x → x <:+: cur.data →
      ∃ ch ∈ splitLoop tok chunk_size chunk_overlap rest cur curTok idx,
        x <:+: ch.content.data := by
  intro rest
  induction rest with
  | nil =>
    intro cur curTok idx x hx h
    rw [splitLoop]
    have hinf : x <:+: (pyStrip cur).data := infix_pyStrip hx h
    have hne : pyStrip cur ≠ "" := by
      intro he
      rw [he, show ("" : String).data = [] from rfl, List.infix_nil] at hinf
      exact hx.1 hinf
    rw [if_pos hne]
    exact ⟨⟨pyStrip cur, idx, curTok⟩, List.mem_singleton.mpr rfl, hinf⟩
  | cons s rest ih =>
    intro cur curTok idx x hx h
    rw [splitLoop]
    split
    · exact ⟨⟨pyStrip cur, idx, curTok⟩, List.mem_cons_self _ _, infix_pyStrip hx h⟩
    · by_cases hce : cur = ""
      · subst hce
        rw [show ("" : String).data = [] from rfl, List.infix_nil] at h
        exact absurd h hx.1
      · rw [if_pos (show cur ≠ "" from hce)]
        refine ih (cur ++ " " ++ s) (curTok + tok s) idx x hx (h.trans ?_)
        have hp : cur.data <+: (cur ++ " " ++ s).data := by
          rw [String.data_append, String.data_append]
          exact (List.prefix_append cur.data _).trans (List.prefix_append _ _)
        exact hp.isInfix

/-- No sentence is dropped: every clean sentence of the input ends up as an
infix of some emitted chunk's content. -/
theorem splitLoop_covers (tok : String → Nat) (chunk_size chunk_overlap : Nat) :
    ∀ (rest : List String) (cur : String) (curTok idx : Nat) (s : String),
      s ∈ rest → CleanWord s.data →
      ∃ ch ∈ splitLoop tok chunk_size chunk_overlap rest cur curTok idx,
        s.data <:+: ch.content.data := by
  intro rest
  induction rest with
  | nil =>
    intro _ _ _ s hs _
    exact absurd hs (List.not_mem_nil s)
  | cons t rest ih =>
    intro cur curTok idx s hs hcl
    rw [splitLoop]
    rcases List.mem_cons.mp hs with heq | hs2
    · rw [heq] at hcl ⊢
      split
      · have hseed : t.data <:+: (get_overlap_text chunk_overlap cur ++ " " ++ t).data := by
          rw [String.data_append]
          exact (List.suffix_append _ _).isInfix
        obtain ⟨ch, hch, hinf⟩ := splitLoop_covers_cur tok chunk_size chunk_overlap rest
          (get_overlap_text chunk_overlap cur ++ " " ++ t)
          (tok (get_overlap_text chunk_overlap cur ++ " " ++ t)) (idx + 1) t.data hcl hseed
        exact ⟨ch, List.mem_cons_of_mem _ hch, hinf⟩
      · by_cases hce : cur = ""
        · subst hce
          rw [if_neg (by simp)]
          exact splitLoop_covers_cur tok chunk_size chunk_overlap rest t _ idx t.data hcl
            List.infix_rfl
        · rw [if_pos (show cur ≠ "" from hce)]
          have hsuf : t.data <:+: (cur ++ " " ++ t).data := by
            rw [String.data_append]
            exact (List.suffix_append _ _).isInfix
          exact splitLoop_covers_cur tok chunk_size chunk_overlap rest (cur ++ " " ++ t)
            (curTok + tok t) idx t.data hcl hsuf
    · split
      · obtain ⟨ch, hch, hinf⟩ := ih _ _ _ s hs2 hcl
        exact ⟨ch, List.mem_cons_of_mem _ hch, hinf⟩
      · exact ih _ _ _ s hs2 hcl

/-- C1 counterexample: with the default configuration (`chunk_size = 1000`,
`chunk_overlap = 200`) and a tokenizer giving each of the three sentences at
most 1000 tokens, the chunker emits a chunk whose recorded token count is
2310 > 1000: the second chunk is seeded with the whole previous chunk as
overlap plus the next sentence and is never re-checked against the budget. -/
theorem C1_counterexample :
    (∀ s ∈ ["aaa", "aaa", "b"], 330 * s.length ≤ 1000) ∧
    ∃ c ∈ split_text_into_chunks (fun s => 330 * s.length) 1000 200
        ["aaa", "aaa", "b"], 1000 < c.token_count := by
  decide

/-- C1 (amended): every chunk's recorded token count is at most
`chunk_size`, except for a chunk that is a single whole sentence (stripped)
exceeding the budget, or a whole overlap seed — overlap words of a closed
chunk, a space, a sentence — exceeding it; an oversized chunk is always one
of these two whole texts, never a mid-sentence fragment.  And no sentence is
dropped: every non-empty sentence without edge whitespace (the shape the
regex split of cleaned text produces) appears intact inside some emitted
chunk's content. -/
theorem C1_token_bound (tok : String → Nat) (chunk_size chunk_overlap : Nat)
    (sentences : List String) (h0 : tok "" = 0) :
    (∀ ch ∈ split_text_into_chunks tok chunk_size chunk_overlap sentences,
      ch.token_count ≤ chunk_size ∨
      (∃ s ∈ sentences, ch.content = pyStrip s ∧ ch.token_count = tok s) ∨
      ∃ c, ∃ s ∈ sentences,
        ch.content = pyStrip (get_overlap_text chunk_overlap c ++ " " ++ s) ∧
        ch.token_count = tok (get_overlap_text chunk_overlap c ++ " " ++ s)) ∧
    ∀ s ∈ sentences, pyStrip s = s → s ≠ "" →
      ∃ ch ∈ split_text_into_chunks tok chunk_size chunk_overlap sentences,
        s.data <:+: ch.content.data := by
  constructor
  · intro ch hch
    exact splitLoop_chunkOk tok chunk_size chunk_overlap sentences h0 sentences "" 0 0
      (fun _ hx => hx) (fun _ => rfl) (Or.inl (Nat.zero_le _)) ch hch
  · intro s hs h1 h2
    exact splitLoop_covers tok chunk_size chunk_overlap sentences "" 0 0 s hs
      (cleanWord_data h1 h2)

/-- Witness for `C1_token_bound` at a concrete tokenizer and sentence list,
also instantiating the no-drop clause at the sentence `"ab."`. -/
theorem C1_token_bound_witness :
    String.length "" = 0 ∧
    pyStrip "ab." = "ab." ∧ ("ab." : String) ≠ "" ∧ "ab." ∈ ["ab.", "cd."] ∧
    (∀ ch ∈ split_text_into_chunks String.length 1000 200 ["ab.", "cd."],
      ch.token_count ≤ 1000 ∨
      (∃ s ∈ ["ab.", "cd."], ch.content = pyStrip s ∧
        ch.token_count = String.length s) ∨
      ∃ c, ∃ s ∈ ["ab.", "cd."],
        ch.content = pyStrip (get_overlap_text 200 c ++ " " ++ s) ∧
        ch.token_count = String.length (get_overlap_text 200 c ++ " " ++ s)) ∧
    ∃ ch ∈ split_text_into_chunks String.length 1000 200 ["ab.", "cd."],
      ("ab." : String).data <:+: ch.content.data :=
  ⟨rfl, by decide, by decide, by decide,
   (C1_token_bound String.length 1000 200 ["ab.", "cd."] rfl).1,
   (C1_token_bound String.length 1000 200 ["ab.", "cd."] rfl).2 "ab." (by decide)
     (by decide) (by decide)⟩

/-! ## `embedding_service.py`

A `genai.embed_content` call is an external capability: it is a parameter
`embed : String → Option (List ℚ)`, `none` standing for a raised exception
(which `generate_embedding` turns into `None`). -/

/-- One external embedding call per text; `none` models a raised exception. -/
abbrev EmbedFn := String → Option (List ℚ)

/-- The batch loop of `EmbeddingService.generate_embeddings_batch`: the slice
`texts[i:i+batch_size]` is embedded one text at a time, each raised call
contributing `None` at its own position. -/
def batchLoop (embed : EmbedFn) (batch_size : Nat) (hbs : 0 < batch_size) :
    List String → List (Option (List ℚ))
  | [] => []
  | t :: ts =>
    ((t :: ts).take batch_size).map embed ++
      batchLoop embed batch_size hbs ((t :: ts).drop batch_size)
termination_by ts => ts.length
decreasing_by
  simp only [List.length_drop, List.length_cons]
  omega

/-- `EmbeddingService.generate_embeddings_batch`.  With `batch_size = 0`
Python's `range(0, len(texts), 0)` raises `ValueError` and the outer handler
returns `[None] * len(texts)`. -/
def generate_embeddings_batch (embed : EmbedFn) (texts : List String)
    (batch_size : Nat) : List (Option (List ℚ)) :=
  if h : batch_size = 0 then texts.map (fun _ => none)
  else batchLoop embed batch_size (Nat.pos_of_ne_zero h) texts

theorem batchLoop_eq_map (embed : EmbedFn) (batch_size : Nat) (hbs : 0 < batch_size) :
    ∀ ts : List String, batchLoop embed batch_size hbs ts = ts.map embed := by
  have H : ∀ (n : Nat) (ts : List String), ts.length ≤ n →
      batchLoop embed batch_size hbs ts = ts.map embed := by
    intro n
    induction n with
    | zero =>
      intro ts hts
      have h : ts = [] := List.length_eq_zero.mp (Nat.le_zero.mp hts)
      subst h
      rw [batchLoop]
      rfl
    | succ n ihn =>
      intro ts hts
      match ts with
      | [] =>
        rw [batchLoop]
        rfl
      | t :: ts' =>
        rw [batchLoop, ihn ((t :: ts').drop batch_size)
            (by simp only [List.length_drop, List.length_cons]
                simp only [List.length_cons] at hts
                omega),
          ← List.map_append, List.take_append_drop]
  intro ts
  exact H ts.length ts le_rfl

/-- C4: `generate_embeddings_batch` on N texts returns exactly the positional
list `texts.map embed`: length N, each failed position holds `none`, every
other position holds that text's vector, failures never shift or drop
sibling positions. -/
theorem C4_batch_positional (embed : EmbedFn) (texts : List String)
    (batch_size : Nat) (hbs : 0 < batch_size) :
    generate_embeddings_batch embed texts batch_size = texts.map embed ∧
    (generate_embeddings_batch embed texts batch_size).length = texts.length ∧
    ∀ i : Nat, (generate_embeddings_batch embed texts batch_size)[i]? =
      (texts[i]?).map embed := by
  have he : generate_embeddings_batch embed texts batch_size = texts.map embed := by
    rw [generate_embeddings_batch, dif_neg (Nat.pos_iff_ne_zero.mp hbs)]
    exact batchLoop_eq_map embed batch_size (Nat.pos_of_ne_zero
      (Nat.pos_iff_ne_zero.mp hbs)) texts
  refine ⟨he, by rw [he, List.length_map], fun i => by rw [he, List.getElem?_map]⟩

/-- A sample embedder that raises on the text `"fail"`. -/
def embedW : EmbedFn := fun t => if t = "fail" then none else some [1]

/-- Witness for `C4_batch_positional`: three texts, batch size 2, the middle
one failing. -/
theorem C4_batch_positional_witness :
    0 < 2 ∧ generate_embeddings_batch embedW ["u", "fail", "v"] 2 =
      [some [1], none, some [1]] :=
  ⟨by decide,
   ((C4_batch_positional embedW ["u", "fail", "v"] 2 (by decide)).1).trans (by decide)⟩

/-- `np.dot` on two vectors (use sites pair equal-length vectors only;
numpy's error on mismatched shapes is not modelled). -/
def dotList (v w : List ℝ) : ℝ := (List.zipWith (· * ·) v w).sum

/-- `np.linalg.norm`: the L2 norm, over exact reals. -/
noncomputable def normList (v : List ℝ) : ℝ :=
  Real.sqrt ((v.map (fun x => x ^ 2)).sum)

open Classical in
/-- `EmbeddingService.calculate_similarity`, with float arithmetic idealized
as real arithmetic: cosine similarity, 0 when either norm is zero. -/
noncomputable def calculate_similarity (v w : List ℝ) : ℝ :=
  if normList v = 0 ∨ normList w = 0 then 0
  else dotList v w / (normList v * normList w)

theorem dotList_self (v : List ℝ) :
    dotList v v = (v.map (fun x => x ^ 2)).sum := by
  induction v with
  | nil => rfl
  | cons a v ih =>
    simp only [dotList, List.zipWith_cons_cons, List.sum_cons, List.map_cons] at *
    rw [ih, pow_two]

theorem sumsq_nonneg (v : List ℝ) : 0 ≤ (v.map (fun x => x ^ 2)).sum := by
  refine List.sum_nonneg fun x hx => ?_
  obtain ⟨y, _, rfl⟩ := List.mem_map.mp hx
  exact sq_nonneg y

/-- C8: self-similarity of a non-zero vector is exactly 1, and similarity
against the zero vector is 0 (not an error).  Arithmetic is modelled exactly
(over ℝ); IEEE rounding of the Python floats is outside the embedding. -/
theorem C8_cosine :
    (∀ v : List ℝ, (∃ x ∈ v, x ≠ 0) → calculate_similarity v v = 1) ∧
    ∀ v : List ℝ, calculate_similarity v (List.replicate v.length 0) = 0 := by
  constructor
  · rintro v ⟨x, hx, hx0⟩
    have hS0 : 0 ≤ (v.map (fun z => z ^ 2)).sum := sumsq_nonneg v
    have hSpos : 0 < (v.map (fun z => z ^ 2)).sum :=
      lt_of_lt_of_le (pow_pos (abs_pos.mpr hx0) 2 |>.trans_eq (sq_abs x))
        (List.single_le_sum (fun z hz => by
          obtain ⟨y, _, rfl⟩ := List.mem_map.mp hz
          exact sq_nonneg y) _ (List.mem_map_of_mem _ hx))
    have hn0 : normList v ≠ 0 := by
      unfold normList
      exact ne_of_gt (Real.sqrt_pos.mpr hSpos)
    unfold calculate_similarity
    rw [if_neg (by push_neg; exact ⟨hn0, hn0⟩), dotList_self]
    unfold normList
    rw [Real.mul_self_sqrt hS0]
    exact div_self (ne_of_gt hSpos)
  · intro v
    have hz : normList (List.replicate v.length 0) = 0 := by
      unfold normList
      simp
    unfold calculate_similarity
    rw [if_pos (Or.inr hz)]

/-- Witness for `C8_cosine` at the one-dimensional vector `[1]`. -/
theorem C8_cosine_witness :
    (∃ x ∈ [(1 : ℝ)], x ≠ 0) ∧ calculate_similarity [(1 : ℝ)] [(1 : ℝ)] = 1 ∧
    calculate_similarity [(1 : ℝ)] (List.replicate [(1 : ℝ)].length 0) = 0 :=
  have h : ∃ x ∈ [(1 : ℝ)], x ≠ 0 := ⟨1, List.mem_singleton.mpr rfl, one_ne_zero⟩
  ⟨h, C8_cosine.1 [(1 : ℝ)] h, C8_cosine.2 [(1 : ℝ)]⟩

/-! ## `vector_storage.py`

The pgvector store is modelled explicitly: the `"VectorEmbedding"` table is a
list of rows in insertion order, the externally-owned `"DocumentChunk"` and
`"Document"` tables are lists keyed by primary key, and the `<=>`
cosine-distance operator (pgvector's C implementation over floats) is a
parameter `pgDist`.  `ORDER BY` ascending distance is modelled by a stable
insertion sort; `created_at` timestamps are not modelled. -/

/-- A row of the `"VectorEmbedding"` table. -/
structure StoredEmbedding where
  id : String
  chunkId : String
  embedding : List ℚ
  model : String
deriving Repr, DecidableEq

/-- A row of the external `"DocumentChunk"` table. -/
structure DocumentChunk where
  id : String
  documentId : String
  content : String
  pageNumber : Option Nat
  chunkIndex : Nat
  metadata : String
deriving Repr, DecidableEq

/-- A row of the external `"Document"` table. -/
structure Document where
  id : String
  agentId : String
  fileName : String
  originalName : String
deriving Repr, DecidableEq

/-- The relational state `search_similar_embeddings` reads. -/
structure VectorDB where
  embeddings : List StoredEmbedding
  chunks : List DocumentChunk
  documents : List Document
deriving Repr, DecidableEq

/-- One row of the SELECT's FROM/JOIN clause. -/
structure JoinedRow where
  emb : StoredEmbedding
  chunk : DocumentChunk
  doc : Document
deriving Repr, DecidableEq

/-- One element of the list `search_similar_embeddings` returns. -/
structure SearchResult where
  id : String
  chunk_id : String
  content : String
  page_number : Option Nat
  chunk_index : Nat
  metadata : String
  agent_id : String
  document_id : String
  file_name : String
  original_name : String
  similarity_score : ℚ
  model : String
deriving Repr, DecidableEq

/-- The two inner JOINs (`ve."chunkId" = dc.id`, `dc."documentId" = d.id`);
`find?` is lookup by primary key. -/
def joinRows (db : VectorDB) : List JoinedRow :=
  db.embeddings.filterMap fun e =>
    match db.chunks.find? (fun c => c.id == e.chunkId) with
    | none => none
    | some c =>
      match db.documents.find? (fun d => d.id == c.documentId) with
      | none => none
      | some d => some ⟨e, c, d⟩

/-- The optional WHERE clauses `d."agentId" = %s` and `d.id = %s`, each added
only when the Python argument is truthy (`if agent_id:` — absent and empty
strings add no filter). -/
def scopeFilter (agent_id document_id : Option String) (row : JoinedRow) : Bool :=
  (match agent_id with
   | some a => if a.isEmpty then true else row.doc.agentId == a
   | none => true) &&
  (match document_id with
   | some d => if d.isEmpty then true else row.doc.id == d
   | none => true)

/-- FROM/JOIN/WHERE: the rows the query ranks, in stored insertion order. -/
def candidateRows (db : VectorDB) (agent_id document_id : Option String) :
    List JoinedRow :=
  (joinRows db).filter (scopeFilter agent_id document_id)

/-- pgvector's `<=>` cosine-distance operator, an external capability. -/
abbrev DistFn := List ℚ → List ℚ → ℚ

/-- `ve.embedding <=> %s` against the query vector. -/
def rowDist (pgDist : DistFn) (q : List ℚ) (row : JoinedRow) : ℚ :=
  pgDist row.emb.embedding q

/-- The `ORDER BY` comparison: ascending distance to the query. -/
def rowLe (pgDist : DistFn) (q : List ℚ) (a b : JoinedRow) : Prop :=
  rowDist pgDist q a ≤ rowDist pgDist q b

instance (pgDist : DistFn) (q : List ℚ) : DecidableRel (rowLe pgDist q) :=
  fun a b => inferInstanceAs (Decidable (rowDist pgDist q a ≤ rowDist pgDist q b))

instance (pgDist : DistFn) (q : List ℚ) : IsTotal JoinedRow (rowLe pgDist q) :=
  ⟨fun a b => le_total (rowDist pgDist q a) (rowDist pgDist q b)⟩

instance (pgDist : DistFn) (q : List ℚ) : IsTrans JoinedRow (rowLe pgDist q) :=
  ⟨fun _ _ _ => le_trans⟩

/-- One admissible result of `ORDER BY ve.embedding <=> %s`, used as the
deterministic representative in the executable model (an insertion sort by
ascending distance).  The SQL itself promises only `IsOrderByResult` below:
it has no tie-break, and PostgreSQL leaves the relative order of rows with
equal sort keys unspecified. -/
def rankedRows (pgDist : DistFn) (q : List ℚ) (db : VectorDB)
    (agent_id document_id : Option String) : List JoinedRow :=
  (candidateRows db agent_id document_id).insertionSort (rowLe pgDist q)

/-- The contract of `ORDER BY ve.embedding <=> %s`: any permutation of the
candidate rows that is sorted by ascending distance to the query is an
admissible output — nothing constrains the order within a tie. -/
abbrev IsOrderByResult (pgDist : DistFn) (q : List ℚ)
    (cand ranked : List JoinedRow) : Prop :=
  List.Perm ranked cand ∧ ranked.Sorted (rowLe pgDist q)

/-- The SELECT projection, with
`similarity_score = 1 - (ve.embedding <=> %s)`. -/
def toResult (pgDist : DistFn) (q : List ℚ) (row : JoinedRow) : SearchResult :=
  { id := row.emb.id
    chunk_id := row.emb.chunkId
    content := row.chunk.content
    page_number := row.chunk.pageNumber
    chunk_index := row.chunk.chunkIndex
    metadata := row.chunk.metadata
    agent_id := row.doc.agentId
    document_id := row.doc.id
    file_name := row.doc.fileName
    original_name := row.doc.originalName
    similarity_score := 1 - rowDist pgDist q row
    model := row.emb.model }

/-- `VectorStorageService.search_similar_embeddings`: join, scope-filter,
order by distance, `LIMIT limit`, project. -/
def search_similar_embeddings (pgDist : DistFn) (q : List ℚ) (limit : Nat)
    (agent_id document_id : Option String) (db : VectorDB) : List SearchResult :=
  ((rankedRows pgDist q db agent_id document_id).take limit).map (toResult pgDist q)

/-- C5 (amended): for EVERY ordering of the candidate rows the SQL admits
(any distance-sorted permutation), the projected and truncated result list
is sorted by `similarity_score` descending — every adjacent pair is ordered
— and `LIMIT` only truncates (the result is a prefix of the full ranked
projection).  The executable pipeline is one such admissible ordering, so
`search_similar_embeddings` itself satisfies both.  No conjunct constrains
the order within a tie: the code does not determine it
(see `C5_counterexample`). -/
theorem C5_query_sorted (pgDist : DistFn) (q : List ℚ) (limit : Nat)
    (agent_id document_id : Option String) (db : VectorDB) :
    (∀ ranked : List JoinedRow,
      IsOrderByResult pgDist q (candidateRows db agent_id document_id) ranked →
      ((ranked.take limit).map (toResult pgDist q)).Chain'
        (fun x y => y.similarity_score ≤ x.similarity_score) ∧
      (ranked.take limit).map (toResult pgDist q) <+:
        ranked.map (toResult pgDist q)) ∧
    IsOrderByResult pgDist q (candidateRows db agent_id document_id)
      (rankedRows pgDist q db agent_id document_id) ∧
    (search_similar_embeddings pgDist q limit agent_id document_id db).Chain'
      (fun x y => y.similarity_score ≤ x.similarity_score) ∧
    search_similar_embeddings pgDist q limit agent_id document_id db <+:
      (rankedRows pgDist q db agent_id document_id).map (toResult pgDist q) := by
  have hmain : ∀ ranked : List JoinedRow, ranked.Sorted (rowLe pgDist q) →
      ((ranked.take limit).map (toResult pgDist q)).Chain'
        (fun x y => y.similarity_score ≤ x.similarity_score) ∧
      (ranked.take limit).map (toResult pgDist q) <+:
        ranked.map (toResult pgDist q) := by
    intro ranked hs
    constructor
    · have ht : (ranked.take limit).Pairwise (rowLe pgDist q) :=
        List.Pairwise.sublist (List.take_sublist limit _) hs
      refine List.Pairwise.chain' ?_
      refine List.Pairwise.map (toResult pgDist q) (fun a b hab => ?_) ht
      show (toResult pgDist q b).similarity_score ≤ (toResult pgDist q a).similarity_score
      exact sub_le_sub_left hab 1
    · rw [List.map_take]
      exact List.take_prefix limit _
  have hrr : IsOrderByResult pgDist q (candidateRows db agent_id document_id)
      (rankedRows pgDist q db agent_id document_id) :=
    ⟨List.perm_insertionSort (rowLe pgDist q) _,
      List.sorted_insertionSort (rowLe pgDist q) _⟩
  exact ⟨fun ranked hr => hmain ranked hr.2, hrr,
    (hmain _ hrr.2).1, (hmain _ hrr.2).2⟩

/-- C6: with a document scope supplied (a non-empty `document_id`), every
returned row belongs to that document, and the result's length is
`min limit (number of in-scope candidate rows)`: scope filters act on all
stored rows before ranking and truncation, so truncation never hides an
in-scope row behind out-of-scope ones. -/
theorem C6_document_scope (pgDist : DistFn) (q : List ℚ) (limit : Nat)
    (agent_id : Option String) (db : VectorDB) (d : String) (hd : d ≠ "") :
    (∀ r ∈ search_similar_embeddings pgDist q limit agent_id (some d) db,
      r.document_id = d) ∧
    (search_similar_embeddings pgDist q limit agent_id (some d) db).length =
      min limit (candidateRows db agent_id (some d)).length := by
  have hde : d.isEmpty = false := by
    cases he : d.isEmpty
    · rfl
    · exact absurd ((String.isEmpty_iff d).mp he) hd
  constructor
  · intro r hr
    rw [search_similar_embeddings] at hr
    obtain ⟨row, hrow, rfl⟩ := List.mem_map.mp hr
    have hmem : row ∈ rankedRows pgDist q db agent_id (some d) :=
      List.mem_of_mem_take hrow
    have hcand : row ∈ candidateRows db agent_id (some d) :=
      (List.perm_insertionSort (rowLe pgDist q) _).mem_iff.mp hmem
    rw [candidateRows, List.mem_filter] at hcand
    have hf := hcand.2
    have h2 := ((Bool.and_eq_true _ _).mp hf).2
    have h2x : (if d.isEmpty then true else row.doc.id == d) = true := h2
    rw [hde] at h2x
    simp only [Bool.false_eq_true, if_false] at h2x
    exact beq_iff_eq.mp h2x
  · rw [search_similar_embeddings, List.length_map, List.length_take,
      rankedRows, List.length_insertionSort]

/-- A two-document sample store used by the concrete witnesses. -/
def dbW : VectorDB :=
  { embeddings := [⟨"emb_c1", "c1", [1], "m"⟩, ⟨"emb_c2", "c2", [2], "m"⟩]
    chunks := [⟨"c1", "d1", "alpha", some 1, 0, "md"⟩,
               ⟨"c2", "d2", "beta", some 2, 0, "md"⟩]
    documents := [⟨"d1", "agent1", "f1.pdf", "f1.pdf"⟩,
                  ⟨"d2", "agent1", "f2.pdf", "f2.pdf"⟩] }

/-- A sample distance function: distance 0 to everything. -/
def pgDistW : DistFn := fun _ _ => 0

/-- The joined rows of `dbW`, used by the witnesses. -/
def rowW1 : JoinedRow :=
  ⟨⟨"emb_c1", "c1", [1], "m"⟩, ⟨"c1", "d1", "alpha", some 1, 0, "md"⟩,
    ⟨"d1", "agent1", "f1.pdf", "f1.pdf"⟩⟩

def rowW2 : JoinedRow :=
  ⟨⟨"emb_c2", "c2", [2], "m"⟩, ⟨"c2", "d2", "beta", some 2, 0, "md"⟩,
    ⟨"d2", "agent1", "f2.pdf", "f2.pdf"⟩⟩

/-- C5 counterexample (to the tie clause of the original claim): in a store
whose two rows are at equal distance from the query, the reversed ranking
`[rowW2, rowW1]` is a fully admissible `ORDER BY` output — sorted and a
permutation of the candidates — yet it lists the later-inserted chunk
`"c2"` before the earlier-inserted `"c1"`, while the stored insertion order
is `["c1", "c2"]`.  The SQL at `vector_storage.py:270-273` has no
tie-break, so the code does not ensure ties follow stored insertion
order. -/
theorem C5_counterexample :
    rowDist pgDistW [1] rowW1 = rowDist pgDistW [1] rowW2 ∧
    candidateRows dbW none none = [rowW1, rowW2] ∧
    IsOrderByResult pgDistW [1] (candidateRows dbW none none) [rowW2, rowW1] ∧
    (([rowW2, rowW1].take 5).map (toResult pgDistW [1])).map
      (fun r => r.chunk_id) = ["c2", "c1"] ∧
    (search_similar_embeddings pgDistW [1] 5 none none dbW).map
      (fun r => r.chunk_id) = ["c1", "c2"] := by
  decide

/-- Witness for `C5_query_sorted`, applying the universally quantified
clause to an admissible ordering that is NOT the one `insertionSort`
produces (the reversed tie), so the quantifier is exercised genuinely. -/
theorem C5_query_sorted_witness :
    IsOrderByResult pgDistW [1] (candidateRows dbW none none) [rowW2, rowW1] ∧
    (([rowW2, rowW1].take 5).map (toResult pgDistW [1])).Chain'
      (fun x y => y.similarity_score ≤ x.similarity_score) ∧
    ([rowW2, rowW1].take 5).map (toResult pgDistW [1]) <+:
      [rowW2, rowW1].map (toResult pgDistW [1]) ∧
    (search_similar_embeddings pgDistW [1] 5 none none dbW).Chain'
      (fun x y => y.similarity_score ≤ x.similarity_score) := by
  have h := C5_query_sorted pgDistW [1] 5 none none dbW
  have hio : IsOrderByResult pgDistW [1] (candidateRows dbW none none)
      [rowW2, rowW1] := ⟨by decide, by decide⟩
  exact ⟨hio, (h.1 _ hio).1, (h.1 _ hio).2, h.2.2.1⟩

/-- Witness for `C6_document_scope` at the sample store, scoped to `"d1"`. -/
theorem C6_document_scope_witness :
    ("d1" : String) ≠ "" ∧
    (∀ r ∈ search_similar_embeddings pgDistW [1] 5 none (some "d1") dbW,
      r.document_id = "d1") ∧
    (search_similar_embeddings pgDistW [1] 5 none (some "d1") dbW).length =
      min 5 (candidateRows dbW none (some "d1")).length :=
  ⟨by decide, (C6_document_scope pgDistW [1] 5 none dbW "d1" (by decide)).1,
    (C6_document_scope pgDistW [1] 5 none dbW "d1" (by decide)).2⟩

/-- The INSERT … ON CONFLICT (id) DO UPDATE of `store_embedding` /
`store_embeddings_batch`: if a row with the same `id` exists, its `embedding`
and `model` are replaced, otherwise the row is appended. -/
def upsertEmbedding (table : List StoredEmbedding) (row : StoredEmbedding) :
    List StoredEmbedding :=
  if table.any (fun r => r.id == row.id) then
    table.map fun r =>
      if r.id == row.id then { r with embedding := row.embedding, model := row.model }
      else r
  else table ++ [row]

/-- `VectorStorageService.store_embedding`: upsert of the row
`(id = "emb_" ++ chunk_id, chunkId = chunk_id, embedding, model)`.  The
Python `bool` return (False only on a raised SQL error) is not modelled. -/
def store_embedding (table : List StoredEmbedding) (chunk_id : String)
    (embedding : List ℚ) (model : String) : List StoredEmbedding :=
  upsertEmbedding table ⟨"emb_" ++ chunk_id, chunk_id, embedding, model⟩

/-- One entry of the `embeddings_data` argument of `store_embeddings_batch`.
`embedding = none` models a `None` entry.  (A dict missing the `chunk_id`
key is skipped in Python; the typed model always carries one.) -/
structure BatchItem where
  chunk_id : String
  embedding : Option (List ℚ)
  model : Option String
deriving Repr, DecidableEq

/-- `VectorStorageService.store_embeddings_batch`: entries processed in
order; an entry whose embedding is `None` or `[]` (Python falsy) is skipped;
`model` defaults to `"text-embedding-3-small"` via `data.get`; returns the
new table and the stored count.  Each insert is the same
INSERT … ON CONFLICT statement as `store_embedding`. -/
def store_embeddings_batch (table : List StoredEmbedding) (items : List BatchItem) :
    List StoredEmbedding × Nat :=
  items.foldl
    (fun acc item =>
      match item.embedding with
      | none => acc
      | some v =>
        if v.isEmpty then acc
        else (store_embedding acc.1 item.chunk_id v
            (item.model.getD "text-embedding-3-small"), acc.2 + 1))
    (table, 0)

/-- Well-formedness of the `"VectorEmbedding"` table: every id is `"emb_"`
prepended to the chunk id, and ids are pairwise distinct (`id` is the
PRIMARY KEY). -/
def WFTable (t : List StoredEmbedding) : Prop :=
  (∀ r ∈ t, r.id = "emb_" ++ r.chunkId) ∧ t.Pairwise (fun a b => a.id ≠ b.id)

theorem string_append_cancel_left {p a b : String} (h : p ++ a = p ++ b) : a = b := by
  have h2 : p.data ++ a.data = p.data ++ b.data := by
    rw [← String.data_append, ← String.data_append, h]
  have h3 : a.data = b.data := List.append_cancel_left h2
  cases a
  cases b
  exact congrArg String.mk h3

theorem WFTable_upsert {t : List StoredEmbedding} (hw : WFTable t)
    {row : StoredEmbedding} (hrow : row.id = "emb_" ++ row.chunkId) :
    WFTable (upsertEmbedding t row) := by
  obtain ⟨hshape, huniq⟩ := hw
  rw [upsertEmbedding]
  split
  · constructor
    · intro r hr
      obtain ⟨r0, hr0, rfl⟩ := List.mem_map.mp hr
      by_cases h : (r0.id == row.id) = true
      · rw [if_pos h]
        exact hshape r0 hr0
      · rw [if_neg h]
        exact hshape r0 hr0
    · refine List.Pairwise.map _ (fun a b hab => ?_) huniq
      by_cases ha : (a.id == row.id) = true <;> by_cases hb : (b.id == row.id) = true <;>
        simp only [if_pos, if_neg, ha, hb, ite_true, ite_false] <;> exact hab
  · rename_i hany
    constructor
    · intro r hr
      rcases List.mem_append.mp hr with h | h
      · exact hshape r h
      · rw [List.mem_singleton] at h
        subst h
        exact hrow
    · rw [List.pairwise_append]
      refine ⟨huniq, List.pairwise_singleton _ _, ?_⟩
      intro a ha b hb
      rw [List.mem_singleton] at hb
      subst hb
      intro he
      exact hany (List.any_eq_true.mpr ⟨a, ha, beq_iff_eq.mpr he⟩)

theorem WFTable_store {t : List StoredEmbedding} (hw : WFTable t)
    (chunk_id : String) (v : List ℚ) (m : String) :
    WFTable (store_embedding t chunk_id v m) :=
  WFTable_upsert hw rfl

theorem WFTable_batch {t : List StoredEmbedding} (hw : WFTable t)
    (items : List BatchItem) : WFTable (store_embeddings_batch t items).1 := by
  rw [store_embeddings_batch]
  suffices h : ∀ (acc : List StoredEmbedding × Nat), WFTable acc.1 →
      WFTable (items.foldl
        (fun acc item =>
          match item.embedding with
          | none => acc
          | some v =>
            if v.isEmpty then acc
            else (store_embedding acc.1 item.chunk_id v
                (item.model.getD "text-embedding-3-small"), acc.2 + 1))
        acc).1 from h (t, 0) hw
  induction items with
  | nil => exact fun acc hacc => hacc
  | cons item items ih =>
    intro acc hacc
    rw [List.foldl_cons]
    refine ih _ ?_
    match hv : item.embedding with
    | none => exact hacc
    | some v =>
      by_cases he : v.isEmpty
      · simp only [he, ite_true]
        exact hacc
      · simp only [he, ite_false]
        exact WFTable_store hacc _ _ _

/-- Under well-formedness, selecting a chunk's rows finds at most one. -/
theorem filter_chunk_len_le_one : ∀ (t : List StoredEmbedding),
    (∀ r ∈ t, r.id = "emb_" ++ r.chunkId) → t.Pairwise (fun a b => a.id ≠ b.id) →
    ∀ c : String, (t.filter (fun r => r.chunkId == c)).length ≤ 1 := by
  intro t
  induction t with
  | nil =>
    intro _ _ c
    simp
  | cons r t ih =>
    intro hshape huniq c
    rw [List.pairwise_cons] at huniq
    obtain ⟨hhead, htail⟩ := huniq
    rw [List.filter_cons]
    by_cases hp : (r.chunkId == c) = true
    · rw [if_pos hp]
      have hrc : r.chunkId = c := beq_iff_eq.mp hp
      have hnil : t.filter (fun x => x.chunkId == c) = [] := by
        rw [List.filter_eq_nil_iff]
        intro b hb hbc
        have hbc2 : b.chunkId = c := beq_iff_eq.mp hbc
        have he : r.id = b.id := by
          rw [hshape b (List.mem_cons_of_mem _ hb),
            hshape r (List.mem_cons_self _ _), hbc2, hrc]
        exact hhead b hb he
      rw [hnil]
      simp
    · rw [if_neg hp]
      exact ih (fun x hx => hshape x (List.mem_cons_of_mem _ hx)) htail c

/-- The update branch of the upsert: mapping the conditional replacement over
a well-formed table that does hold a row with the conflicting id leaves
exactly the freshly written row as the single row of chunk `c`. -/
theorem map_update_filter : ∀ (t : List StoredEmbedding),
    (∀ r ∈ t, r.id = "emb_" ++ r.chunkId) → t.Pairwise (fun a b => a.id ≠ b.id) →
    ∀ (c : String) (v : List ℚ) (m : String), (∃ r ∈ t, r.id = "emb_" ++ c) →
      (t.map fun r =>
        if r.id == "emb_" ++ c then { r with embedding := v, model := m }
        else r).filter (fun r => r.chunkId == c) = [⟨"emb_" ++ c, c, v, m⟩] := by
  intro t
  induction t with
  | nil =>
    rintro _ _ c v m ⟨r1, hr1, -⟩
    exact absurd hr1 (List.not_mem_nil r1)
  | cons r t ih =>
    rintro hshape huniq c v m ⟨r1, hr1, hid1⟩
    rw [List.pairwise_cons] at huniq
    obtain ⟨hhead, htail⟩ := huniq
    have hshape' : ∀ x ∈ t, x.id = "emb_" ++ x.chunkId :=
      fun x hx => hshape x (List.mem_cons_of_mem _ hx)
    rw [List.map_cons, List.filter_cons]
    by_cases hr : r.id = "emb_" ++ c
    · have hrc : r.chunkId = c :=
        string_append_cancel_left
          ((hshape r (List.mem_cons_self _ _)).symm.trans hr)
      have hif : (if (r.id == "emb_" ++ c) = true then
          ({ r with embedding := v, model := m } : StoredEmbedding) else r) =
          ⟨"emb_" ++ c, c, v, m⟩ := by
        rw [if_pos (beq_iff_eq.mpr hr)]
        cases r
        simp_all
      have hnil : (t.map fun x =>
          if x.id == "emb_" ++ c then { x with embedding := v, model := m }
          else x).filter (fun x => x.chunkId == c) = [] := by
        rw [List.filter_eq_nil_iff]
        intro b hb
        obtain ⟨b0, hb0, rfl⟩ := List.mem_map.mp hb
        have hb0id : b0.id ≠ "emb_" ++ c := fun he =>
          hhead b0 hb0 (hr.trans he.symm)
        rw [if_neg (by simpa using hb0id)]
        intro hbc
        exact hb0id ((hshape' b0 hb0).trans (by rw [beq_iff_eq.mp hbc]))
      rw [hif, if_pos (show (((⟨"emb_" ++ c, c, v, m⟩ : StoredEmbedding).chunkId
          == c) = true) by simp), hnil]
    · have hrc : r.chunkId ≠ c := fun he =>
        hr ((hshape r (List.mem_cons_self _ _)).trans (by rw [he]))
      have hr1t : r1 ∈ t := by
        rcases List.mem_cons.mp hr1 with h | h
        · exact absurd (h ▸ hid1) hr
        · exact h
      have hif : (if (r.id == "emb_" ++ c) = true then
          ({ r with embedding := v, model := m } : StoredEmbedding) else r) = r :=
        if_neg (by simpa using hr)
      rw [hif, if_neg (by simpa using hrc)]
      exact ih hshape' htail c v m ⟨r1, hr1t, hid1⟩

/-- The insert branch of the upsert: appending a fresh row to a well-formed
table with no row of chunk `c` leaves it as the single row of chunk `c`. -/
theorem append_new_filter (t : List StoredEmbedding)
    (hshape : ∀ r ∈ t, r.id = "emb_" ++ r.chunkId)
    (c : String) (v : List ℚ) (m : String)
    (hnone : ∀ r ∈ t, r.id ≠ "emb_" ++ c) :
    (t ++ [(⟨"emb_" ++ c, c, v, m⟩ : StoredEmbedding)]).filter
      (fun r => r.chunkId == c) = [⟨"emb_" ++ c, c, v, m⟩] := by
  rw [List.filter_append]
  have hnil : t.filter (fun r => r.chunkId == c) = [] := by
    rw [List.filter_eq_nil_iff]
    intro b hb hbc
    exact hnone b hb ((hshape b hb).trans (by rw [beq_iff_eq.mp hbc]))
  rw [hnil]
  simp

/-- Under well-formedness, a `store_embedding` leaves exactly the freshly
written row as the single row of its chunk. -/
theorem store_embedding_filter {t : List StoredEmbedding} (hw : WFTable t)
    (c : String) (v : List ℚ) (m : String) :
    (store_embedding t c v m).filter (fun r => r.chunkId == c) =
      [⟨"emb_" ++ c, c, v, m⟩] := by
  obtain ⟨hshape, huniq⟩ := hw
  rw [store_embedding, upsertEmbedding]
  split
  · rename_i hany
    obtain ⟨r1, hr1, hid1⟩ := List.any_eq_true.mp hany
    exact map_update_filter t hshape huniq c v m ⟨r1, hr1, beq_iff_eq.mp hid1⟩
  · rename_i hany
    refine append_new_filter t hshape c v m ?_
    intro b hb he
    exact hany (List.any_eq_true.mpr ⟨b, hb, beq_iff_eq.mpr he⟩)

/-- C7: `store_embedding` is idempotent by chunk id — storing twice for the
same chunk, the second time with a different vector, leaves exactly one row
for that chunk, holding the latest vector and model tag. -/
theorem C7_store_idempotent (t : List StoredEmbedding) (hw : WFTable t)
    (c : String) (v1 v2 : List ℚ) (m1 m2 : String) (_hv : v1 ≠ v2) :
    (store_embedding (store_embedding t c v1 m1) c v2 m2).filter
      (fun r => r.chunkId == c) = [⟨"emb_" ++ c, c, v2, m2⟩] :=
  store_embedding_filter (WFTable_store hw c v1 m1) c v2 m2

/-- Witness for `C7_store_idempotent`: two stores to chunk `"c1"` on the
empty table. -/
theorem C7_store_idempotent_witness :
    WFTable [] ∧ ([(1 : ℚ)] ≠ [2]) ∧
    (store_embedding (store_embedding [] "c1" [1] "m1") "c1" [2] "m2").filter
      (fun r => r.chunkId == "c1") = [⟨"emb_" ++ "c1", "c1", [2], "m2"⟩] :=
  have hw : WFTable [] := ⟨fun r hr => absurd hr (List.not_mem_nil r), List.Pairwise.nil⟩
  ⟨hw, by decide, C7_store_idempotent [] hw "c1" [1] [2] "m1" "m2" (by decide)⟩

/-- A call against the `"VectorEmbedding"` table: either `store_embedding`
or `store_embeddings_batch`. -/
inductive StoreOp where
  | single : String → List ℚ → String → StoreOp
  | batch : List BatchItem → StoreOp

/-- Apply one store call to the table. -/
def applyOp (t : List StoredEmbedding) : StoreOp → List StoredEmbedding
  | .single c v m => store_embedding t c v m
  | .batch items => (store_embeddings_batch t items).1

/-- The table after a sequence of store calls against an empty index. -/
def applyOps (ops : List StoreOp) : List StoredEmbedding :=
  ops.foldl applyOp []

theorem WFTable_applyOps (ops : List StoreOp) : WFTable (applyOps ops) := by
  rw [applyOps]
  suffices h : ∀ (t : List StoredEmbedding), WFTable t → WFTable (ops.foldl applyOp t) from
    h [] ⟨fun r hr => absurd hr (List.not_mem_nil r), List.Pairwise.nil⟩
  induction ops with
  | nil => exact fun t ht => ht
  | cons op ops ih =>
    intro t ht
    rw [List.foldl_cons]
    refine ih _ ?_
    match op with
    | .single c v m => exact WFTable_store ht c v m
    | .batch items => exact WFTable_batch ht items

/-- C10: after any sequence of `store_embedding` / `store_embeddings_batch`
calls on an initially empty index, every row's id is `"emb_"` prepended to
its chunk id, each chunk has at most one row, and re-embedding a chunk (any
vector, any model tag) replaces its row rather than adding a second one. -/
theorem C10_one_row_per_chunk (ops : List StoreOp) :
    (∀ r ∈ applyOps ops, r.id = "emb_" ++ r.chunkId) ∧
    (∀ c : String, ((applyOps ops).filter (fun r => r.chunkId == c)).length ≤ 1) ∧
    ∀ (c : String) (v : List ℚ) (m : String),
      (store_embedding (applyOps ops) c v m).filter (fun r => r.chunkId == c) =
        [⟨"emb_" ++ c, c, v, m⟩] := by
  obtain ⟨hshape, huniq⟩ := WFTable_applyOps ops
  exact ⟨hshape, fun c => filter_chunk_len_le_one _ hshape huniq c,
    fun c v m => store_embedding_filter ⟨hshape, huniq⟩ c v m⟩

/-! ## `rag_service.py`

The RAG service holds an embedder and a vector store; both are function
parameters here: `EmbedFn` for `embedding_service.generate_embedding`
(`none` = failure) and `SearchFn` for
`vector_storage.search_similar_embeddings` applied to the current store. -/

/-- The vector search capability as the RAG service calls it:
query embedding, limit, agent scope, document scope. -/
abbrev SearchFn := List ℚ → Nat → Option String → Option String → List SearchResult

/-- `RAGService.retrieve_relevant_context`: embed the query (`if not
query_embedding: return []` — `None` and `[]` are both falsy), search with
`limit = max_results * 2`, keep results with
`similarity_score >= similarity_threshold`, truncate to `max_results`.
A raised exception anywhere also returns `[]` (not modelled: the embedded
operations are total). -/
def retrieve_relevant_context (generate_embedding : EmbedFn) (search : SearchFn)
    (query : String) (agent_id : String) (document_id : Option String)
    (max_results : Nat) (similarity_threshold : ℚ) : List SearchResult :=
  match generate_embedding query with
  | none => []
  | some qe =>
    if qe.isEmpty then []
    else
      ((search qe (max_results * 2) (some agent_id) document_id).filter
        (fun r => decide (similarity_threshold ≤ r.similarity_score))).take max_results

/-- A stored result whose similarity 9/10 clears the default threshold. -/
def rW : SearchResult :=
  ⟨"emb_c1", "c1", "alpha", some 1, 0, "md", "agent1", "d1", "f1.pdf", "f1.pdf",
    9/10, "m"⟩

/-- C2 counterexample: when query embedding fails, the retriever returns the
plain empty list even though the store holds an above-threshold match — the
very same value a successful embedding over an empty store produces.  No
failure flag or any other distinguishing signal exists in the return value,
so the infra failure is NOT distinguishable from "no relevant content". -/
theorem C2_counterexample :
    retrieve_relevant_context (fun _ => none) (fun _ _ _ _ => [rW])
      "q" "agent1" none 5 (1/2) = [] ∧
    retrieve_relevant_context (fun _ => some [1]) (fun _ _ _ _ => [])
      "q" "agent1" none 5 (1/2) = [] ∧
    (1/2 : ℚ) ≤ rW.similarity_score := by
  refine ⟨rfl, by decide, by norm_num [rW]⟩

/-- C2 (amended): when embedding of the query fails the retriever returns
the empty result set, but this is the same plain empty list the legitimate
"no relevant content" outcome yields — no failure signal distinguishable by
the caller is produced. -/
theorem C2_empty_on_failure :
    (∀ (search : SearchFn) (q a : String) (d : Option String) (mr : Nat) (thr : ℚ),
      retrieve_relevant_context (fun _ => none) search q a d mr thr = []) ∧
    (∀ (gen : EmbedFn) (q a : String) (d : Option String) (mr : Nat) (thr : ℚ),
      retrieve_relevant_context gen (fun _ _ _ _ => []) q a d mr thr = []) := by
  constructor
  · intro search q a d mr thr
    rfl
  · intro gen q a d mr thr
    cases hg : gen q with
    | none => simp [retrieve_relevant_context, hg]
    | some qe => simp [retrieve_relevant_context, hg]

/-- C3: with a successful (non-falsy) query embedding, the retriever asks
the index for `max_results * 2` candidates, removes every candidate below
the threshold, and returns at most `max_results` of the remainder in index
order — every returned score clears the threshold, possibly leaving fewer
than `max_results` results or none. -/
theorem C3_threshold_filter (gen : EmbedFn) (search : SearchFn) (q a : String)
    (d : Option String) (mr : Nat) (thr : ℚ) (qe : List ℚ)
    (hq : gen q = some qe) (hne : qe.isEmpty = false) :
    retrieve_relevant_context gen search q a d mr thr =
      ((search qe (mr * 2) (some a) d).filter
        (fun r => decide (thr ≤ r.similarity_score))).take mr ∧
    (∀ r ∈ retrieve_relevant_context gen search q a d mr thr,
      thr ≤ r.similarity_score) ∧
    (retrieve_relevant_context gen search q a d mr thr).length ≤ mr ∧
    List.Sublist (retrieve_relevant_context gen search q a d mr thr)
      (search qe (mr * 2) (some a) d) := by
  have he : retrieve_relevant_context gen search q a d mr thr =
      ((search qe (mr * 2) (some a) d).filter
        (fun r => decide (thr ≤ r.similarity_score))).take mr := by
    simp only [retrieve_relevant_context, hq, hne, Bool.false_eq_true, if_false]
  refine ⟨he, ?_, ?_, ?_⟩
  · intro r hr
    rw [he] at hr
    exact of_decide_eq_true (List.mem_filter.mp (List.mem_of_mem_take hr)).2
  · rw [he]
    exact List.length_take_le mr _
  · rw [he]
    exact (List.take_sublist _ _).trans (List.filter_sublist _)

/-- A result below the default threshold. -/
def rLow : SearchResult :=
  ⟨"emb_c2", "c2", "beta", some 2, 1, "md", "agent1", "d1", "f1.pdf", "f1.pdf",
    1/10, "m"⟩

/-- A second result above the default threshold. -/
def rMid : SearchResult :=
  ⟨"emb_c3", "c3", "gamma", some 3, 2, "md", "agent1", "d1", "f1.pdf", "f1.pdf",
    3/5, "m"⟩

/-- Witness for `C3_threshold_filter`: three candidates with scores
9/10, 1/10, 3/5, threshold 1/2, `max_results = 1`. -/
theorem C3_threshold_filter_witness :
    retrieve_relevant_context (fun _ => some [1]) (fun _ _ _ _ => [rW, rLow, rMid])
      "q" "agent1" none 1 (1/2) =
      (((fun (_ : List ℚ) (_ : Nat) (_ _ : Option String) => [rW, rLow, rMid])
          [1] (1 * 2) (some "agent1") none).filter
        (fun r => decide ((1/2 : ℚ) ≤ r.similarity_score))).take 1 ∧
    (∀ r ∈ retrieve_relevant_context (fun _ => some [1])
        (fun _ _ _ _ => [rW, rLow, rMid]) "q" "agent1" none 1 (1/2),
      (1/2 : ℚ) ≤ r.similarity_score) ∧
    (retrieve_relevant_context (fun _ => some [1])
      (fun _ _ _ _ => [rW, rLow, rMid]) "q" "agent1" none 1 (1/2)).length ≤ 1 ∧
    List.Sublist (retrieve_relevant_context (fun _ => some [1])
        (fun _ _ _ _ => [rW, rLow, rMid]) "q" "agent1" none 1 (1/2))
      ((fun (_ : List ℚ) (_ : Nat) (_ _ : Option String) => [rW, rLow, rMid])
        [1] (1 * 2) (some "agent1") none) :=
  C3_threshold_filter (fun _ => some [1]) (fun _ _ _ _ => [rW, rLow, rMid])
    "q" "agent1" none 1 (1/2) [1] rfl rfl

/-- The fixed insufficient-context answer of
`RAGService.generate_contextual_response`. -/
def insufficient_context_answer : String :=
  "I don't have enough relevant information in the uploaded documents to answer this question accurately. Please try rephrasing your question or upload more relevant documents."

/-- The dictionary `generate_contextual_response` returns; `Option` fields
model keys present only on the success path.  The outer exception path (its
dict carries an `error` key) is unreachable in the pure model. -/
structure RAGResponse where
  answer : String
  sources : List SearchResult
  context_used : Bool
  context_chunks_count : Option Nat
  context_text : Option String
deriving Repr, DecidableEq

/-- `RAGService._prepare_context_text`.  `fmt` is Python's `"{:.2f}"` float
formatting of the score, kept abstract; `file_name` is always present in the
typed model (Python defaults a missing key to `"Unknown"`); a `page_number`
of `None` or `0` is falsy and prints nothing. -/
def prepare_context_text (fmt : ℚ → String) (chunks : List SearchResult) : String :=
  joinSep "\n" ((List.enumFrom 1 chunks).map fun p =>
    "[Source " ++ toString p.1 ++ ": " ++ p.2.file_name ++
      (match p.2.page_number with
       | some n => if n = 0 then "" else ", Page " ++ toString n
       | none => "") ++
      ", Similarity: " ++ fmt p.2.similarity_score ++ "]" ++
      "\n" ++ p.2.content ++ "\n")

/-- `RAGService._create_rag_prompt` (the `agent_id` argument is unused in
the body, as in the source). -/
def create_rag_prompt (query : String) (context_text : String)
    (_agent_id : String) : String :=
  "\nYou are an AI assistant specialized in helping with exam preparation. You have access to specific study materials and should provide accurate, helpful answers based on the provided context.\n\nCONTEXT FROM STUDY MATERIALS:\n"
    ++ context_text ++
    "\n\nUSER QUESTION: " ++ query ++
    "\n\nINSTRUCTIONS:\n1. Answer the question based primarily on the provided context from the study materials\n2. If the context doesn't contain enough information to answer completely, say so and provide what information you can\n3. Be specific and cite relevant details from the materials when possible\n4. If the question is about concepts not covered in the materials, explain that the specific topic isn't covered in the uploaded documents\n5. Provide clear, educational explanations that help with exam preparation\n6. If applicable, suggest related topics or concepts that might be helpful\n7. Format your response using Markdown for better readability (use headers, bullet points, bold text, etc.)\n\nPlease provide a comprehensive answer based on the study materials provided, formatted in Markdown.\n"

/-- `RAGService.generate_contextual_response`.  `ai_model = none` models
`self.ai_model` being absent; a generator returning `none` models a raised
or timed-out call, and an empty string models a falsy `ai_response.text`.
Retrieval uses `max_results = max_context_chunks` and the default threshold
1/2. -/
def generate_contextual_response (gen_emb : EmbedFn) (search : SearchFn)
    (ai_model : Option (String → Option String)) (fmt : ℚ → String)
    (query agent_id : String) (document_id : Option String)
    (max_context_chunks : Nat) (include_sources : Bool) : RAGResponse :=
  let context_chunks := retrieve_relevant_context gen_emb search query agent_id
    document_id max_context_chunks (1/2)
  if context_chunks.isEmpty then
    { answer := insufficient_context_answer
      sources := []
      context_used := false
      context_chunks_count := none
      context_text := none }
  else
    let context_text := prepare_context_text fmt context_chunks
    let rag_prompt := create_rag_prompt query context_text agent_id
    let answer :=
      match ai_model with
      | some gen =>
        match gen rag_prompt with
        | some t =>
          if t.isEmpty then
            "I couldn't generate a proper response. Here's the context I found:\n\n"
              ++ context_text
          else t
        | none =>
          "I encountered an error while generating a response. Here's the context I found:\n\n"
            ++ context_text
      | none => "AI model not available. Here's the context I found:\n\n" ++ context_text
    { answer := answer
      sources := if include_sources then context_chunks else []
      context_used := true
      context_chunks_count := some context_chunks.length
      context_text := some context_text }

/-- C9: whenever retrieval yields zero chunks, the response is the fixed
insufficient-context answer with `context_used = false` and no sources, for
EVERY generation model `ai_model` — the external generator is never
consulted on this path. -/
theorem C9_insufficient_context (gen_emb : EmbedFn) (search : SearchFn)
    (ai_model : Option (String → Option String)) (fmt : ℚ → String)
    (query agent_id : String) (document_id : Option String)
    (max_context_chunks : Nat) (include_sources : Bool)
    (h : retrieve_relevant_context gen_emb search query agent_id document_id
      max_context_chunks (1/2) = []) :
    generate_contextual_response gen_emb search ai_model fmt query agent_id
      document_id max_context_chunks include_sources =
      { answer := insufficient_context_answer, sources := [],
        context_used := false, context_chunks_count := none,
        context_text := none } := by
  simp only [generate_contextual_response, h, List.isEmpty_nil, if_true]

/-- Witness for `C9_insufficient_context`: a failing embedder, an empty
store, and a generator that would answer if it were ever called. -/
theorem C9_insufficient_context_witness :
    retrieve_relevant_context (fun _ => none) (fun _ _ _ _ => [])
      "q" "agent1" none 5 (1/2) = [] ∧
    generate_contextual_response (fun _ => none) (fun _ _ _ _ => [])
      (some (fun p => some p)) (fun _ => "0.50") "q" "agent1" none 5 true =
      { answer := insufficient_context_answer, sources := [],
        context_used := false, context_chunks_count := none,
        context_text := none } :=
  ⟨rfl, C9_insufficient_context (fun _ => none) (fun _ _ _ _ => [])
    (some (fun p => some p)) (fun _ => "0.50") "q" "agent1" none 5 true rfl⟩

end PrepVista
